import Mathlib

/-!
Verification of the quality-search / best-of-selection engine of the
Be-Humming image-compression toolkit.

The Python source is shallowly embedded: external effects (encoder
invocations, metric computations, filesystem probes) become explicit
functional parameters, machine reals (perceptual scores) become `ℚ`,
quality values become `Int` (Python integers), and fallible calls return
`Option`/`Except` values.  Each definition is a direct translation of the
function named in its doc comment.
-/

namespace BeHumming

/-- The metrics map built by `metrics_fn` in
`src/be_humming/mods/hybrid_perceptual.py` (lines 98-102):
a dictionary with keys `psnr`, `ssim`, `butter`, each possibly `None`
(`compute_mse_psnr` may yield no value, `compute_ssim_skimage` returns
`None` when scikit-image/numpy are missing or fail, `run_butteraugli`
returns `None` without a binary or on failure). -/
structure Metrics where
  psnr : Option ℚ
  ssim : Option ℚ
  butter : Option ℚ
deriving DecidableEq

/-- The fields of `args` consulted by `binary_search_quality`
(`hybrid_perceptual.py`, lines 66-72).  `target_butter` is a float in the
source; Python truthiness of a float is `≠ 0`. -/
structure HybridArgs where
  target_butter : ℚ
  use_ssim : Bool
  target_ssim : ℚ
  target_psnr : ℚ
deriving DecidableEq

/-- The pass/fail decision of `binary_search_quality`
(`hybrid_perceptual.py`, lines 66-72):

    passes = True
    if args.target_butter and m.get("butter") is not None:
        passes = m["butter"] <= args.target_butter
    elif args.use_ssim and m.get("ssim") is not None:
        passes = m["ssim"] >= args.target_ssim
    else:
        passes = (m.get("psnr") or 0) >= args.target_psnr

`args.target_butter` being truthy is `target_butter ≠ 0`; the final branch
maps a missing (or zero) PSNR to `0` via Python `or`. -/
def hybrid_passes (args : HybridArgs) (m : Metrics) : Bool :=
  if args.target_butter ≠ 0 ∧ m.butter ≠ none then
    decide (m.butter.getD 0 ≤ args.target_butter)
  else if args.use_ssim = true ∧ m.ssim ≠ none then
    decide (args.target_ssim ≤ m.ssim.getD 0)
  else
    decide (args.target_psnr ≤ m.psnr.getD 0)

/-- The pass/fail decision of `find_best_jpeg`
(`src/be_humming/mods/jpeg_binary_search.py`, lines 53-57):

    passes = False
    if use_ssim and ssim_val is not None:
        passes = ssim_val >= target_ssim
    else:
        if psnr_val is not None: passes = psnr_val >= target_psnr
-/
def jpeg_passes (use_ssim : Bool) (ssim_val psnr_val : Option ℚ)
    (target_ssim target_psnr : ℚ) : Bool :=
  if use_ssim = true ∧ ssim_val ≠ none then
    decide (target_ssim ≤ ssim_val.getD 0)
  else
    match psnr_val with
    | some v => decide (target_psnr ≤ v)
    | none => false

/-- Observable trace of one quality search: the recorded best quality
(`best["q"]`, `none` when the search failed), the number of encode
attempts made (one per loop iteration), and the quality values whose
candidate file was actually written into the search's temporary
directory (one file per successful encode; the source never deletes
them — `binary_search_quality` ends with `finally: pass` and its
`tempfile.mkdtemp(prefix="search_")` directory is never removed). -/
structure SearchTrace where
  best : Option Int
  attempts : Nat
  files : List Int
deriving DecidableEq

/-- Loop of `binary_search_quality` (`hybrid_perceptual.py`, lines 56-78).
`make_cand q` is the success flag returned by `make_cand_fn(q, cand)`
(the Encoder Adapter); `metrics q` the map returned by `metrics_fn` for
the candidate encoded at quality `q`.  Python `(lo + hi) // 2` is floor
division, i.e. `Int.fdiv`.  State threaded: `best` (line 53), the attempt
count and the files created (observability of the loop, not source
variables). -/
def binary_search_quality_go (make_cand : Int → Bool) (metrics : Int → Metrics)
    (args : HybridArgs) (lo hi : Int) (best : Option Int)
    (attempts : Nat) (files : List Int) : SearchTrace :=
  if h : lo ≤ hi then
    let mid := Int.fdiv (lo + hi) 2
    if make_cand mid = false then
      binary_search_quality_go make_cand metrics args (mid + 1) hi best
        (attempts + 1) files
    else if hybrid_passes args (metrics mid) then
      binary_search_quality_go make_cand metrics args lo (mid - 1) (some mid)
        (attempts + 1) (files ++ [mid])
    else
      binary_search_quality_go make_cand metrics args (mid + 1) hi best
        (attempts + 1) (files ++ [mid])
  else
    ⟨best, attempts, files⟩
termination_by (hi + 1 - lo).toNat
decreasing_by
  all_goals
    simp only [mid] at *
    have h1 : lo ≤ Int.fdiv (lo + hi) 2 := by
      rw [Int.fdiv_eq_ediv _ (by omega)]; omega
    have h2 : Int.fdiv (lo + hi) 2 ≤ hi := by
      rw [Int.fdiv_eq_ediv _ (by omega)]; omega
    omega

/-- `binary_search_quality` (`hybrid_perceptual.py`, lines 52-86): runs the
loop from the given bounds with no best candidate recorded.  The source
returns `{"success": True, "q": best["q"], "path": ..., "metrics": ...}`
when `best` is set and `{"success": False}` otherwise; `SearchTrace.best`
is `some q` exactly in the first case. -/
def binary_search_quality (make_cand : Int → Bool) (metrics : Int → Metrics)
    (args : HybridArgs) (lo hi : Int) : SearchTrace :=
  binary_search_quality_go make_cand metrics args lo hi none 0 []

/-- Loop of `find_best_jpeg` (`jpeg_binary_search.py`, lines 41-63).
`save_ok q` is the success flag of `save_jpeg_pillow(..., q=q)`;
`psnr q` / `ssim q` the metric values computed against the candidate at
quality `q`; `ssim_val` is only computed when `use_ssim` is set
(line 51: `... if use_ssim else None`). -/
def find_best_jpeg_go (save_ok : Int → Bool) (psnr ssim : Int → Option ℚ)
    (use_ssim : Bool) (target_psnr target_ssim : ℚ)
    (lo hi : Int) (best : Option Int) (attempts : Nat) (files : List Int) :
    SearchTrace :=
  if h : lo ≤ hi then
    let mid := Int.fdiv (lo + hi) 2
    if save_ok mid = false then
      find_best_jpeg_go save_ok psnr ssim use_ssim target_psnr target_ssim
        (mid + 1) hi best (attempts + 1) files
    else if jpeg_passes use_ssim (if use_ssim then ssim mid else none)
        (psnr mid) target_ssim target_psnr then
      find_best_jpeg_go save_ok psnr ssim use_ssim target_psnr target_ssim
        lo (mid - 1) (some mid) (attempts + 1) (files ++ [mid])
    else
      find_best_jpeg_go save_ok psnr ssim use_ssim target_psnr target_ssim
        (mid + 1) hi best (attempts + 1) (files ++ [mid])
  else
    ⟨best, attempts, files⟩
termination_by (hi + 1 - lo).toNat
decreasing_by
  all_goals
    simp only [mid] at *
    have h1 : lo ≤ Int.fdiv (lo + hi) 2 := by
      rw [Int.fdiv_eq_ediv _ (by omega)]; omega
    have h2 : Int.fdiv (lo + hi) 2 ≤ hi := by
      rw [Int.fdiv_eq_ediv _ (by omega)]; omega
    omega

/-- `find_best_jpeg` (`jpeg_binary_search.py`, lines 37-66): the binary
search from `min_q`/`max_q` with `best = None`.  The source returns
`{"success": True, "q": ..., ...}` when `best` is set, otherwise
`{"success": False, "reason": "no q met thresholds"}`. -/
def find_best_jpeg (save_ok : Int → Bool) (psnr ssim : Int → Option ℚ)
    (use_ssim : Bool) (target_psnr target_ssim : ℚ)
    (min_q max_q : Int) : SearchTrace :=
  find_best_jpeg_go save_ok psnr ssim use_ssim target_psnr target_ssim
    min_q max_q none 0 []

/-- Abstract form of the two search loops above, parameterised by the
combined pass predicate (encode success and threshold pass).  Both
concrete loops are proved equal to this one; the correctness lemmas are
stated here once. -/
def search_loop (P : Int → Bool) (lo hi : Int) (best : Option Int) :
    Option Int :=
  if h : lo ≤ hi then
    let mid := Int.fdiv (lo + hi) 2
    if P mid then search_loop P lo (mid - 1) (some mid)
    else search_loop P (mid + 1) hi best
  else best
termination_by (hi + 1 - lo).toNat
decreasing_by
  all_goals
    simp only [mid] at *
    have h1 : lo ≤ Int.fdiv (lo + hi) 2 := by
      rw [Int.fdiv_eq_ediv _ (by omega)]; omega
    have h2 : Int.fdiv (lo + hi) 2 ≤ hi := by
      rw [Int.fdiv_eq_ediv _ (by omega)]; omega
    omega

/-- Number of loop iterations (= encode attempts) of the abstract search
loop. -/
def search_count (P : Int → Bool) (lo hi : Int) : Nat :=
  if h : lo ≤ hi then
    let mid := Int.fdiv (lo + hi) 2
    if P mid then search_count P lo (mid - 1) + 1
    else search_count P (mid + 1) hi + 1
  else 0
termination_by (hi + 1 - lo).toNat
decreasing_by
  all_goals
    simp only [mid] at *
    have h1 : lo ≤ Int.fdiv (lo + hi) 2 := by
      rw [Int.fdiv_eq_ediv _ (by omega)]; omega
    have h2 : Int.fdiv (lo + hi) 2 ≤ hi := by
      rw [Int.fdiv_eq_ediv _ (by omega)]; omega
    omega

/-- The Python midpoint `(lo + hi) // 2` stays inside a non-empty range. -/
lemma mid_bounds {lo hi : Int} (h : lo ≤ hi) :
    lo ≤ Int.fdiv (lo + hi) 2 ∧ Int.fdiv (lo + hi) 2 ≤ hi := by
  rw [Int.fdiv_eq_ediv _ (by omega : (0:Int) ≤ 2)]
  omega

/-- If no quality in the current range passes, the abstract loop returns
whatever best was already recorded (no new candidate is found). -/
lemma search_loop_no_pass (P : Int → Bool) (lo hi : Int) (best : Option Int)
    (hfail : ∀ q, lo ≤ q → q ≤ hi → P q = false) :
    search_loop P lo hi best = best := by
  rw [search_loop]
  by_cases h : lo ≤ hi
  · obtain ⟨h1, h2⟩ := mid_bounds h
    rw [dif_pos h]
    have hm : P (Int.fdiv (lo + hi) 2) = false := hfail _ h1 h2
    simp only [hm, Bool.false_eq_true, if_false]
    exact search_loop_no_pass P (Int.fdiv (lo + hi) 2 + 1) hi best
      (fun q hq1 hq2 => hfail q (by omega) hq2)
  · rw [dif_neg h]
termination_by (hi + 1 - lo).toNat
decreasing_by
  obtain ⟨h1, h2⟩ := mid_bounds h
  omega

/-- Main invariant of the abstract loop under a monotone pass predicate.
`L, H` are the original bounds; the invariants relate the current window
`[lo, hi]` and recorded `best` to them.  Conclusion: the loop returns the
least passing quality of `[L, H]` when one exists. -/
lemma search_loop_invariant (P : Int → Bool) (L H : Int)
    (hmono : ∀ q q', L ≤ q → q ≤ q' → q' ≤ H → P q = true → P q' = true)
    (lo hi : Int) (best : Option Int)
    (hL : L ≤ lo) (hH : hi ≤ H)
    (hleft : ∀ q, L ≤ q → q < lo → P q = false)
    (hbest : ∀ b, best = some b → P b = true ∧ b = hi + 1 ∧ L ≤ b ∧ b ≤ H)
    (hnone : best = none → hi = H)
    (hex : ∃ q, L ≤ q ∧ q ≤ H ∧ P q = true) :
    ∃ b, search_loop P lo hi best = some b ∧ P b = true ∧ L ≤ b ∧ b ≤ H ∧
      ∀ q, L ≤ q → q < b → P q = false := by
  rw [search_loop]
  by_cases h : lo ≤ hi
  · obtain ⟨h1, h2⟩ := mid_bounds h
    rw [dif_pos h]
    by_cases hm : P (Int.fdiv (lo + hi) 2) = true
    · simp only [hm, if_true]
      exact search_loop_invariant P L H hmono lo (Int.fdiv (lo + hi) 2 - 1)
        (some (Int.fdiv (lo + hi) 2)) hL (by omega) hleft
        (by
          intro b hb
          injection hb with hb
          subst hb
          exact ⟨hm, by omega, by omega, by omega⟩)
        (by intro hc; cases hc)
        hex
    · simp only [hm, if_false]
      exact search_loop_invariant P L H hmono (Int.fdiv (lo + hi) 2 + 1) hi
        best (by omega) hH
        (by
          intro q hq1 hq2
          by_cases hql : q < lo
          · exact hleft q hq1 hql
          · cases hPq : P q with
            | false => rfl
            | true =>
              exact absurd (hmono q (Int.fdiv (lo + hi) 2) hq1 (by omega)
                (by omega) hPq) hm)
        hbest hnone hex
  · rw [dif_neg h]
    cases best with
    | some b =>
      obtain ⟨hPb, hbhi, hLb, hbH⟩ := hbest b rfl
      exact ⟨b, rfl, hPb, hLb, hbH, fun q hq1 hq2 => hleft q hq1 (by omega)⟩
    | none =>
      exfalso
      obtain ⟨q, hq1, hq2, hq3⟩ := hex
      have := hnone rfl
      have := hleft q hq1 (by omega)
      rw [hq3] at this
      cases this
termination_by (hi + 1 - lo).toNat
decreasing_by
  all_goals
    obtain ⟨h1, h2⟩ := mid_bounds h
    omega

/-- Correctness of the abstract loop started fresh: with a monotone pass
predicate and at least one passing quality in range, the loop returns
exactly the minimal passing quality. -/
lemma search_loop_min (P : Int → Bool) (lo hi : Int)
    (hmono : ∀ q q', lo ≤ q → q ≤ q' → q' ≤ hi → P q = true → P q' = true)
    (hex : ∃ q, lo ≤ q ∧ q ≤ hi ∧ P q = true) :
    ∃ b, search_loop P lo hi none = some b ∧ P b = true ∧ lo ≤ b ∧ b ≤ hi ∧
      ∀ q, lo ≤ q → q < b → P q = false := by
  exact search_loop_invariant P lo hi hmono lo hi none (le_refl lo)
    (le_refl hi) (fun q hq1 hq2 => absurd hq1 (by omega))
    (fun b hb => by cases hb) (fun _ => rfl) hex

/-- Halving step for the logarithmic bound. -/
lemma log_half_step {s' s : Nat} (h1 : s' ≠ 0) (h2 : 2 * s' ≤ s) :
    Nat.log 2 s' + 1 ≤ Nat.log 2 s := by
  calc Nat.log 2 s' + 1 = Nat.log 2 (s' * 2) :=
        (Nat.log_mul_base (by omega) h1).symm
    _ ≤ Nat.log 2 s := Nat.log_mono_right (by omega)

/-- The abstract loop makes no iteration on an empty range and at most
`log2 (range size) + 1` iterations in general. -/
lemma search_count_bound (P : Int → Bool) (lo hi : Int) :
    (hi < lo → search_count P lo hi = 0) ∧
    search_count P lo hi ≤ Nat.log 2 ((hi + 1 - lo).toNat) + 1 := by
  constructor
  · intro hlt
    rw [search_count, dif_neg (by omega)]
  · rw [search_count]
    by_cases h : lo ≤ hi
    · obtain ⟨h1, h2⟩ := mid_bounds h
      have hmid : Int.fdiv (lo + hi) 2 = (lo + hi) / 2 :=
        Int.fdiv_eq_ediv _ (by omega)
      rw [dif_pos h]
      by_cases hm : P (Int.fdiv (lo + hi) 2) = true
      · simp only [hm, if_true]
        obtain ⟨hz, hb⟩ := search_count_bound P lo (Int.fdiv (lo + hi) 2 - 1)
        by_cases hempty : Int.fdiv (lo + hi) 2 - 1 < lo
        · have := hz hempty
          omega
        · have hsz : (Int.fdiv (lo + hi) 2 - 1 + 1 - lo).toNat ≠ 0 := by omega
          have hhalf : 2 * (Int.fdiv (lo + hi) 2 - 1 + 1 - lo).toNat ≤
              (hi + 1 - lo).toNat := by omega
          have := log_half_step hsz hhalf
          omega
      · have hm' : P (Int.fdiv (lo + hi) 2) = false := by
          cases hx : P (Int.fdiv (lo + hi) 2) with
          | false => rfl
          | true => exact absurd hx hm
        simp only [hm', Bool.false_eq_true, if_false]
        obtain ⟨hz, hb⟩ := search_count_bound P (Int.fdiv (lo + hi) 2 + 1) hi
        by_cases hempty : hi < Int.fdiv (lo + hi) 2 + 1
        · have := hz hempty
          omega
        · have hsz : (hi + 1 - (Int.fdiv (lo + hi) 2 + 1)).toNat ≠ 0 := by omega
          have hhalf : 2 * (hi + 1 - (Int.fdiv (lo + hi) 2 + 1)).toNat ≤
              (hi + 1 - lo).toNat := by omega
          have := log_half_step hsz hhalf
          omega
    · rw [dif_neg h]
      omega
termination_by (hi + 1 - lo).toNat
decreasing_by
  all_goals
    obtain ⟨h1, h2⟩ := mid_bounds h
    omega

/-- `binary_search_quality_go` is the abstract loop applied to the combined
pass predicate (encode succeeds and the threshold decision passes), and its
attempt counter counts the loop iterations. -/
lemma binary_search_quality_go_spec (mc : Int → Bool) (mt : Int → Metrics)
    (args : HybridArgs) (lo hi : Int) (best : Option Int) (a : Nat)
    (fs : List Int) :
    (binary_search_quality_go mc mt args lo hi best a fs).best
      = search_loop (fun q => mc q && hybrid_passes args (mt q)) lo hi best ∧
    (binary_search_quality_go mc mt args lo hi best a fs).attempts
      = a + search_count (fun q => mc q && hybrid_passes args (mt q)) lo hi := by
  rw [binary_search_quality_go, search_loop, search_count]
  by_cases h : lo ≤ hi
  · obtain ⟨h1, h2⟩ := mid_bounds h
    rw [dif_pos h, dif_pos h, dif_pos h]
    by_cases hmc : mc (Int.fdiv (lo + hi) 2) = false
    · rw [if_pos hmc]
      simp only [hmc, Bool.false_and, Bool.false_eq_true, if_false]
      obtain ⟨hb, ha⟩ := binary_search_quality_go_spec mc mt args
        (Int.fdiv (lo + hi) 2 + 1) hi best (a + 1) fs
      exact ⟨hb, by omega⟩
    · rw [if_neg hmc]
      have hmc' : mc (Int.fdiv (lo + hi) 2) = true := by
        cases hx : mc (Int.fdiv (lo + hi) 2) with
        | false => exact absurd hx hmc
        | true => rfl
      by_cases hp : hybrid_passes args (mt (Int.fdiv (lo + hi) 2)) = true
      · simp only [hmc', hp, Bool.true_and, if_true]
        obtain ⟨hb, ha⟩ := binary_search_quality_go_spec mc mt args
          lo (Int.fdiv (lo + hi) 2 - 1) (some (Int.fdiv (lo + hi) 2)) (a + 1)
          (fs ++ [Int.fdiv (lo + hi) 2])
        exact ⟨hb, by omega⟩
      · have hp' : hybrid_passes args (mt (Int.fdiv (lo + hi) 2)) = false := by
          cases hx : hybrid_passes args (mt (Int.fdiv (lo + hi) 2)) with
          | false => rfl
          | true => exact absurd hx hp
        simp only [hmc', hp', Bool.true_and, Bool.false_eq_true, if_false]
        obtain ⟨hb, ha⟩ := binary_search_quality_go_spec mc mt args
          (Int.fdiv (lo + hi) 2 + 1) hi best (a + 1)
          (fs ++ [Int.fdiv (lo + hi) 2])
        exact ⟨hb, by omega⟩
  · rw [dif_neg h, dif_neg h, dif_neg h]
    exact ⟨rfl, rfl⟩
termination_by (hi + 1 - lo).toNat
decreasing_by
  all_goals
    obtain ⟨h1, h2⟩ := mid_bounds h
    omega

/-- `find_best_jpeg_go` is the abstract loop applied to its combined pass
predicate, with the attempt counter counting iterations. -/
lemma find_best_jpeg_go_spec (sv : Int → Bool) (psnr ssim : Int → Option ℚ)
    (us : Bool) (tp ts : ℚ) (lo hi : Int) (best : Option Int) (a : Nat)
    (fs : List Int) :
    (find_best_jpeg_go sv psnr ssim us tp ts lo hi best a fs).best
      = search_loop
          (fun q => sv q &&
            jpeg_passes us (if us then ssim q else none) (psnr q) ts tp)
          lo hi best ∧
    (find_best_jpeg_go sv psnr ssim us tp ts lo hi best a fs).attempts
      = a + search_count
          (fun q => sv q &&
            jpeg_passes us (if us then ssim q else none) (psnr q) ts tp)
          lo hi := by
  rw [find_best_jpeg_go, search_loop, search_count]
  by_cases h : lo ≤ hi
  · obtain ⟨h1, h2⟩ := mid_bounds h
    rw [dif_pos h, dif_pos h, dif_pos h]
    by_cases hmc : sv (Int.fdiv (lo + hi) 2) = false
    · rw [if_pos hmc]
      simp only [hmc, Bool.false_and, Bool.false_eq_true, if_false]
      obtain ⟨hb, ha⟩ := find_best_jpeg_go_spec sv psnr ssim us tp ts
        (Int.fdiv (lo + hi) 2 + 1) hi best (a + 1) fs
      exact ⟨hb, by omega⟩
    · rw [if_neg hmc]
      have hmc' : sv (Int.fdiv (lo + hi) 2) = true := by
        cases hx : sv (Int.fdiv (lo + hi) 2) with
        | false => exact absurd hx hmc
        | true => rfl
      by_cases hp : jpeg_passes us (if us then ssim (Int.fdiv (lo + hi) 2)
          else none) (psnr (Int.fdiv (lo + hi) 2)) ts tp = true
      · simp only [hmc', hp, Bool.true_and, if_true]
        obtain ⟨hb, ha⟩ := find_best_jpeg_go_spec sv psnr ssim us tp ts
          lo (Int.fdiv (lo + hi) 2 - 1) (some (Int.fdiv (lo + hi) 2)) (a + 1)
          (fs ++ [Int.fdiv (lo + hi) 2])
        exact ⟨hb, by omega⟩
      · have hp' : jpeg_passes us (if us then ssim (Int.fdiv (lo + hi) 2)
            else none) (psnr (Int.fdiv (lo + hi) 2)) ts tp = false := by
          cases hx : jpeg_passes us (if us then ssim (Int.fdiv (lo + hi) 2)
              else none) (psnr (Int.fdiv (lo + hi) 2)) ts tp with
          | false => rfl
          | true => exact absurd hx hp
        simp only [hmc', hp', Bool.true_and, Bool.false_eq_true, if_false]
        obtain ⟨hb, ha⟩ := find_best_jpeg_go_spec sv psnr ssim us tp ts
          (Int.fdiv (lo + hi) 2 + 1) hi best (a + 1)
          (fs ++ [Int.fdiv (lo + hi) 2])
        exact ⟨hb, by omega⟩
  · rw [dif_neg h, dif_neg h, dif_neg h]
    exact ⟨rfl, rfl⟩
termination_by (hi + 1 - lo).toNat
decreasing_by
  all_goals
    obtain ⟨h1, h2⟩ := mid_bounds h
    omega

/-- Claim C1: for every quality range `[lower, upper]` with `lower ≤ upper`,
and every encoder and threshold such that passing (encode succeeds and the
threshold decision accepts) is monotonic in quality and at least one
quality in range passes, `binary_search_quality` and `find_best_jpeg`
return a successful result whose recorded quality equals the minimal
passing quality in the range. -/
theorem claim_C1 (mc : Int → Bool) (mt : Int → Metrics) (args : HybridArgs)
    (sv : Int → Bool) (psnr ssim : Int → Option ℚ) (us : Bool) (tp ts : ℚ)
    (lo hi : Int)
    (hmono1 : ∀ q q', lo ≤ q → q ≤ q' → q' ≤ hi →
      (mc q && hybrid_passes args (mt q)) = true →
      (mc q' && hybrid_passes args (mt q')) = true)
    (hex1 : ∃ q, lo ≤ q ∧ q ≤ hi ∧
      (mc q && hybrid_passes args (mt q)) = true)
    (hmono2 : ∀ q q', lo ≤ q → q ≤ q' → q' ≤ hi →
      (sv q && jpeg_passes us (if us then ssim q else none) (psnr q) ts tp)
        = true →
      (sv q' && jpeg_passes us (if us then ssim q' else none) (psnr q') ts tp)
        = true)
    (hex2 : ∃ q, lo ≤ q ∧ q ≤ hi ∧
      (sv q && jpeg_passes us (if us then ssim q else none) (psnr q) ts tp)
        = true) :
    (∃ b, (binary_search_quality mc mt args lo hi).best = some b ∧
      (mc b && hybrid_passes args (mt b)) = true ∧ lo ≤ b ∧ b ≤ hi ∧
      ∀ q, lo ≤ q → q < b →
        (mc q && hybrid_passes args (mt q)) = false) ∧
    (∃ b, (find_best_jpeg sv psnr ssim us tp ts lo hi).best = some b ∧
      (sv b && jpeg_passes us (if us then ssim b else none) (psnr b) ts tp)
        = true ∧ lo ≤ b ∧ b ≤ hi ∧
      ∀ q, lo ≤ q → q < b →
        (sv q && jpeg_passes us (if us then ssim q else none) (psnr q) ts tp)
          = false) := by
  constructor
  · rw [binary_search_quality,
      (binary_search_quality_go_spec mc mt args lo hi none 0 []).1]
    exact search_loop_min _ lo hi hmono1 hex1
  · rw [find_best_jpeg,
      (find_best_jpeg_go_spec sv psnr ssim us tp ts lo hi none 0 []).1]
    exact search_loop_min _ lo hi hmono2 hex2

/-- Witness for C1, the scenario of the spec: range `[30, 95]`, a setup
that passes exactly at qualities `≥ 52`; both searches return quality 52. -/
theorem claim_C1_witness :
    (binary_search_quality (fun _ => true)
        (fun q => ⟨some (q : ℚ), none, none⟩)
        ⟨0, false, 995/1000, 52⟩ 30 95).best = some 52 ∧
    (find_best_jpeg (fun _ => true) (fun q => some (q : ℚ)) (fun _ => none)
        false 52 (995/1000) 30 95).best = some 52 := by
  have hpass : ∀ q : Int,
      ((fun _ : Int => true) q && hybrid_passes ⟨0, false, 995/1000, 52⟩
        ⟨some (q : ℚ), none, none⟩) = true ↔ 52 ≤ q := by
    intro q
    simp only [Bool.true_and, hybrid_passes]
    norm_num
    exact_mod_cast Iff.rfl
  have hpass2 : ∀ q : Int,
      ((fun _ : Int => true) q && jpeg_passes false
        (if false then (fun _ : Int => none) q else none)
        ((fun q : Int => some (q : ℚ)) q) (995/1000) 52) = true ↔ 52 ≤ q := by
    intro q
    simp only [Bool.true_and, jpeg_passes, if_false]
    norm_num
    exact_mod_cast Iff.rfl
  obtain ⟨⟨b1, hb1, hp1, hl1, hh1, hmin1⟩, b2, hb2, hp2, hl2, hh2, hmin2⟩ :=
    claim_C1 (fun _ => true) (fun q => ⟨some (q : ℚ), none, none⟩)
      ⟨0, false, 995/1000, 52⟩ (fun _ => true) (fun q => some (q : ℚ))
      (fun _ => none) false 52 (995/1000) 30 95
      (by
        intro q q' h1 h2 h3 hq
        rw [hpass] at hq
        rw [hpass]
        omega)
      ⟨52, by omega, by omega, (hpass 52).mpr (by omega)⟩
      (by
        intro q q' h1 h2 h3 hq
        rw [hpass2] at hq
        rw [hpass2]
        omega)
      ⟨52, by omega, by omega, (hpass2 52).mpr (by omega)⟩
  have e1 : b1 = 52 := by
    rw [hpass] at hp1
    by_cases hgt : 52 < b1
    · have := hmin1 52 (by omega) hgt
      rw [Bool.eq_false_iff] at this
      exact absurd ((hpass 52).mpr (by omega)) this
    · omega
  have e2 : b2 = 52 := by
    rw [hpass2] at hp2
    by_cases hgt : 52 < b2
    · have := hmin2 52 (by omega) hgt
      rw [Bool.eq_false_iff] at this
      exact absurd ((hpass2 52).mpr (by omega)) this
    · omega
  rw [e1] at hb1
  rw [e2] at hb2
  exact ⟨hb1, hb2⟩

/-- Claim C5: both quality-search loops terminate (they are total Lean
functions), make at most `log2 (range size) + 1` encode attempts, return
failure whenever no quality in range passes (which covers every midpoint
failing to encode), and on an empty range (`lower > upper`) fail
immediately with zero encode attempts. -/
theorem claim_C5 (mc : Int → Bool) (mt : Int → Metrics) (args : HybridArgs)
    (sv : Int → Bool) (psnr ssim : Int → Option ℚ) (us : Bool) (tp ts : ℚ)
    (lo hi : Int) :
    ((binary_search_quality mc mt args lo hi).attempts ≤
      Nat.log 2 ((hi + 1 - lo).toNat) + 1) ∧
    ((∀ q, lo ≤ q → q ≤ hi →
        (mc q && hybrid_passes args (mt q)) = false) →
      (binary_search_quality mc mt args lo hi).best = none) ∧
    (hi < lo → binary_search_quality mc mt args lo hi = ⟨none, 0, []⟩) ∧
    ((find_best_jpeg sv psnr ssim us tp ts lo hi).attempts ≤
      Nat.log 2 ((hi + 1 - lo).toNat) + 1) ∧
    ((∀ q, lo ≤ q → q ≤ hi →
        (sv q && jpeg_passes us (if us then ssim q else none) (psnr q) ts tp)
          = false) →
      (find_best_jpeg sv psnr ssim us tp ts lo hi).best = none) ∧
    (hi < lo → find_best_jpeg sv psnr ssim us tp ts lo hi = ⟨none, 0, []⟩) := by
  refine ⟨?_, ?_, ?_, ?_, ?_, ?_⟩
  · rw [binary_search_quality,
      (binary_search_quality_go_spec mc mt args lo hi none 0 []).2]
    have := (search_count_bound
      (fun q => mc q && hybrid_passes args (mt q)) lo hi).2
    omega
  · intro hfail
    rw [binary_search_quality,
      (binary_search_quality_go_spec mc mt args lo hi none 0 []).1]
    exact search_loop_no_pass _ lo hi none hfail
  · intro hlt
    rw [binary_search_quality, binary_search_quality_go,
      dif_neg (by omega : ¬ lo ≤ hi)]
  · rw [find_best_jpeg,
      (find_best_jpeg_go_spec sv psnr ssim us tp ts lo hi none 0 []).2]
    have := (search_count_bound
      (fun q => sv q &&
        jpeg_passes us (if us then ssim q else none) (psnr q) ts tp) lo hi).2
    omega
  · intro hfail
    rw [find_best_jpeg,
      (find_best_jpeg_go_spec sv psnr ssim us tp ts lo hi none 0 []).1]
    exact search_loop_no_pass _ lo hi none hfail
  · intro hlt
    rw [find_best_jpeg, find_best_jpeg_go,
      dif_neg (by omega : ¬ lo ≤ hi)]

/-- Witness for C5: a setup where every midpoint fails to encode on
`[30, 95]` makes both searches fail within the logarithmic attempt bound,
and the empty range `[95, 30]` fails immediately with zero attempts. -/
theorem claim_C5_witness :
    ((binary_search_quality (fun _ => false) (fun _ => ⟨none, none, none⟩)
        ⟨1, false, 995/1000, 38⟩ 30 95).attempts ≤
      Nat.log 2 (((95 : Int) + 1 - 30).toNat) + 1) ∧
    ((binary_search_quality (fun _ => false) (fun _ => ⟨none, none, none⟩)
        ⟨1, false, 995/1000, 38⟩ 30 95).best = none) ∧
    (binary_search_quality (fun _ => false) (fun _ => ⟨none, none, none⟩)
        ⟨1, false, 995/1000, 38⟩ 95 30 = ⟨none, 0, []⟩) ∧
    ((find_best_jpeg (fun _ => false) (fun _ => none) (fun _ => none)
        false 38 (995/1000) 30 95).best = none) := by
  obtain ⟨h1, h2, h3, _, h5, _⟩ :=
    claim_C5 (fun _ => false) (fun _ => ⟨none, none, none⟩)
      ⟨1, false, 995/1000, 38⟩ (fun _ => false) (fun _ => none)
      (fun _ => none) false 38 (995/1000) 30 95
  obtain ⟨_, _, h3e, _, _, _⟩ :=
    claim_C5 (fun _ => false) (fun _ => ⟨none, none, none⟩)
      ⟨1, false, 995/1000, 38⟩ (fun _ => false) (fun _ => none)
      (fun _ => none) false 38 (995/1000) 95 30
  exact ⟨h1, h2 (fun q _ _ => rfl), h3e (by omega),
    h5 (fun q _ _ => rfl)⟩

/-- One entry of the `candidates` list of `process_file`
(`hybrid_perceptual.py`, lines 113/122/130): the dict
`{"fmt": ..., "bytes": ..., "path": ..., "q": ...}` appended after a
successful per-pipeline search (the path is the promoted best artifact of
that search, left implicit here). -/
structure HybridCandidate where
  fmt : String
  bytes : Int
  q : Int
deriving DecidableEq

/-- Reduction step of Python `min(..., key=...)`: the running minimum is
replaced only on a strictly smaller key, so the first minimal element of
the iterable wins ties. -/
def py_min_step (key : α → Int) (acc y : α) : α :=
  if key y < key acc then y else acc

/-- Modelled semantics of the Python builtin `min(iterable, key=k)` used at
`hybrid_perceptual.py` line 133 and `perceptual.py` line 119: the first
element of the list attaining the minimal key, `none` on an empty list
(Python raises there; the sources guard with `if candidates:`). -/
def py_min_by (key : α → Int) : List α → Option α
  | [] => none
  | x :: xs => some (xs.foldl (py_min_step key) x)

/-- The `candidates` list built by `process_file`
(`hybrid_perceptual.py`, lines 104-130): the JPEG pipeline result is
appended first, then WebP, then AVIF; a failed (or disabled) pipeline
appends nothing. -/
def hybrid_candidates (jpeg webp avif : Option HybridCandidate) :
    List HybridCandidate :=
  jpeg.toList ++ webp.toList ++ avif.toList

/-- `best = min(candidates, key=lambda x: x["bytes"])`
(`hybrid_perceptual.py`, line 133). -/
def hybrid_best (cs : List HybridCandidate) : Option HybridCandidate :=
  py_min_by (fun c => c.bytes) cs

/-- Outcome of the selection tail of `process_file`
(`hybrid_perceptual.py`, lines 132-140): either the winning candidate is
promoted to `out_dir / (stem ++ "." ++ fmt)` with the method string
recorded, or the original file is copied to `out_dir / in_name` and the
error is recorded. -/
inductive HybridOutcome
  | winner (out_name : String) (final_bytes : Int) (method : String)
  | fallback (out_name : String) (error : String)
deriving DecidableEq

/-- Selection tail of `process_file` (`hybrid_perceptual.py`,
lines 132-140):

    if candidates:
        best = min(candidates, key=lambda x: x["bytes"])
        out_path = out_dir / f"(stem).(fmt)"
        shutil.move(str(best["path"]), str(out_path))
        res["final_bytes"] = best["bytes"]
        res["method"] = f"(fmt) (q=(q))"
    else:
        shutil.copy2(in_path, out_dir / in_path.name)
        res["error"] = "No candidates met criteria"
-/
def hybrid_process_select (in_stem in_name : String)
    (cs : List HybridCandidate) : HybridOutcome :=
  match py_min_by (fun c => c.bytes) cs with
  | some best =>
    HybridOutcome.winner (in_stem ++ "." ++ best.fmt) best.bytes
      (best.fmt ++ " (q=" ++ toString best.q ++ ")")
  | none => HybridOutcome.fallback in_name "No candidates met criteria"

/-- One entry of the `candidates` list of `process_file` in
`perceptual.py` (lines 104/109/114): `{"method": ..., "file": ...,
"size": ...}`, appended only on pipeline success (cjpeg first, then WebP,
then AVIF). -/
structure PerceptualCandidate where
  method : String
  file : String
  size : Int
deriving DecidableEq

/-- `best_candidate = min(candidates, key=lambda x: x['size'])`
(`perceptual.py`, line 119). -/
def perceptual_best (cs : List PerceptualCandidate) :
    Option PerceptualCandidate :=
  py_min_by (fun c => c.size) cs

/-- Folding `py_min_step` returns an element whose key is minimal among the
accumulator and the list, and that element is either the accumulator or the
first list element strictly below everything before it. -/
lemma py_min_fold_spec (key : α → Int) :
    ∀ (l : List α) (b : α),
      (∀ y ∈ l, key (l.foldl (py_min_step key) b) ≤ key y) ∧
      key (l.foldl (py_min_step key) b) ≤ key b ∧
      (l.foldl (py_min_step key) b = b ∨
        ∃ pre post, l = pre ++ (l.foldl (py_min_step key) b) :: post ∧
          key (l.foldl (py_min_step key) b) < key b ∧
          ∀ p ∈ pre, key (l.foldl (py_min_step key) b) < key p) := by
  intro l
  induction l with
  | nil => intro b; exact ⟨by simp, le_refl _, Or.inl rfl⟩
  | cons y l ih =>
    intro b
    simp only [List.foldl_cons]
    by_cases h : key y < key b
    · have step : py_min_step key b y = y := if_pos h
      rw [step]
      obtain ⟨hmin, hacc, hfirst⟩ := ih y
      generalize hr : List.foldl (py_min_step key) y l = r at hmin hacc hfirst
      refine ⟨?_, le_trans hacc (le_of_lt h), ?_⟩
      · intro z hz
        rcases List.mem_cons.mp hz with hz | hz
        · rw [hz]; exact hacc
        · exact hmin z hz
      · rcases hfirst with heq | ⟨pre, post, hsplit, hlt, hpre⟩
        · refine Or.inr ⟨[], l, by simp [heq], by rw [heq]; exact h, ?_⟩
          intro p hp; cases hp
        · refine Or.inr ⟨y :: pre, post, by rw [hsplit]; rfl,
            lt_trans hlt h, ?_⟩
          intro p hp
          rcases List.mem_cons.mp hp with hp | hp
          · rw [hp]; exact hlt
          · exact hpre p hp
    · have step : py_min_step key b y = b := if_neg h
      rw [step]
      obtain ⟨hmin, hacc, hfirst⟩ := ih b
      generalize hr : List.foldl (py_min_step key) b l = r at hmin hacc hfirst
      refine ⟨?_, hacc, ?_⟩
      · intro z hz
        rcases List.mem_cons.mp hz with hz | hz
        · rw [hz]; exact le_trans hacc (le_of_not_lt h)
        · exact hmin z hz
      · rcases hfirst with heq | ⟨pre, post, hsplit, hlt, hpre⟩
        · exact Or.inl heq
        · refine Or.inr ⟨y :: pre, post, by rw [hsplit]; rfl, hlt, ?_⟩
          intro p hp
          rcases List.mem_cons.mp hp with hp | hp
          · rw [hp]; exact lt_of_lt_of_le hlt (le_of_not_lt h)
          · exact hpre p hp

/-- On a non-empty list, `py_min_by` returns the first element attaining
the minimal key: its key is a lower bound of all keys, and every earlier
element has a strictly larger key. -/
lemma py_min_by_spec (key : α → Int) (l : List α) (hl : l ≠ []) :
    ∃ c, py_min_by key l = some c ∧ (∀ x ∈ l, key c ≤ key x) ∧
      ∃ pre post, l = pre ++ c :: post ∧ ∀ p ∈ pre, key c < key p := by
  match l with
  | [] => exact absurd rfl hl
  | x :: xs =>
    obtain ⟨hmin, hacc, hfirst⟩ := py_min_fold_spec key xs x
    generalize hr : List.foldl (py_min_step key) x xs = r at hmin hacc hfirst
    refine ⟨r, ?_, ?_, ?_⟩
    · show some (List.foldl (py_min_step key) x xs) = some r
      rw [hr]
    · intro z hz
      rcases List.mem_cons.mp hz with hz | hz
      · rw [hz]; exact hacc
      · exact hmin z hz
    · rcases hfirst with heq | ⟨pre, post, hsplit, hlt, hpre⟩
      · exact ⟨[], xs, by simp [heq], fun p hp => absurd hp (List.not_mem_nil p)⟩
      · refine ⟨x :: pre, post, by rw [hsplit]; rfl, ?_⟩
        intro p hp
        rcases List.mem_cons.mp hp with hp | hp
        · rw [hp]; exact hlt
        · exact hpre p hp

/-- Claim C2: for every family of per-pipeline search results with at
least one success, the best-of selection chooses a successful candidate of
minimal artifact byte size, and when several share that size it chooses
the one of the pipeline declared first — JPEG before WebP before AVIF in
`hybrid_perceptual.process_file` (the construction order of
`hybrid_candidates`), and analogously for `perceptual.process_file`. -/
theorem claim_C2 :
    (∀ jpeg webp avif : Option HybridCandidate,
      hybrid_candidates jpeg webp avif ≠ [] →
      ∃ c, hybrid_best (hybrid_candidates jpeg webp avif) = some c ∧
        (∀ x ∈ hybrid_candidates jpeg webp avif, c.bytes ≤ x.bytes) ∧
        ∃ pre post, hybrid_candidates jpeg webp avif = pre ++ c :: post ∧
          ∀ p ∈ pre, c.bytes < p.bytes) ∧
    (∀ cs : List PerceptualCandidate, cs ≠ [] →
      ∃ c, perceptual_best cs = some c ∧ (∀ x ∈ cs, c.size ≤ x.size) ∧
        ∃ pre post, cs = pre ++ c :: post ∧ ∀ p ∈ pre, c.size < p.size) := by
  constructor
  · intro jpeg webp avif hne
    exact py_min_by_spec _ _ hne
  · intro cs hne
    exact py_min_by_spec _ _ hne

/-- Witness for C2, the scenario of the spec: pipeline A (JPEG) produces a
120000-byte passing candidate, pipeline B (WebP) a 95000-byte one; the
selector picks B with output size 95000. -/
theorem claim_C2_witness :
    hybrid_best (hybrid_candidates (some ⟨"jpg", 120000, 80⟩)
        (some ⟨"webp", 95000, 75⟩) none) = some ⟨"webp", 95000, 75⟩ ∧
    ∃ c, hybrid_best (hybrid_candidates (some ⟨"jpg", 120000, 80⟩)
        (some ⟨"webp", 95000, 75⟩) none) = some c ∧
      (∀ x ∈ hybrid_candidates (some ⟨"jpg", 120000, 80⟩)
        (some ⟨"webp", 95000, 75⟩) none, c.bytes ≤ x.bytes) ∧
      ∃ pre post, hybrid_candidates (some ⟨"jpg", 120000, 80⟩)
          (some ⟨"webp", 95000, 75⟩) none = pre ++ c :: post ∧
        ∀ p ∈ pre, c.bytes < p.bytes :=
  ⟨rfl, claim_C2.1 (some ⟨"jpg", 120000, 80⟩) (some ⟨"webp", 95000, 75⟩)
    none (by simp [hybrid_candidates])⟩

/-- Claim C8 as stated is false on the code: when all pipelines fail, the
recorded error string is "No candidates met criteria", not the claimed
"no pipeline met thresholds". -/
theorem claim_C8_counterexample :
    hybrid_process_select "photo" "photo.png" [] =
      HybridOutcome.fallback "photo.png" "No candidates met criteria" ∧
    "No candidates met criteria" ≠ "no pipeline met thresholds" :=
  ⟨rfl, by decide⟩

/-- Claim C8 (amended): for every job in which all pipelines fail, the
selection records no winner, the original file is copied unchanged into
the output directory under its own name, and the error field equals
"No candidates met criteria". -/
theorem claim_C8_amended (in_stem in_name : String)
    (cs : List HybridCandidate) (h : cs = []) :
    hybrid_process_select in_stem in_name cs =
      HybridOutcome.fallback in_name "No candidates met criteria" ∧
    ∀ o b m, hybrid_process_select in_stem in_name cs ≠
      HybridOutcome.winner o b m := by
  subst h
  refine ⟨rfl, ?_⟩
  intro o b m hcontra
  cases hcontra

/-- Witness for the amended C8 at a concrete job. -/
theorem claim_C8_amended_witness :
    hybrid_process_select "img" "img.jpg" [] =
      HybridOutcome.fallback "img.jpg" "No candidates met criteria" :=
  (claim_C8_amended "img" "img.jpg" [] rfl).1

/-- The pipelines the `perceptual` module can declare a winner from
(`perceptual.py`, lines 101-114). -/
inductive PerceptualPipeline
  | jpeg
  | webp
  | avif
deriving DecidableEq

/-- Temporary candidate file names of `process_file` in `perceptual.py`
(lines 102, 107, 112): `(base)_optim.jpg`, `(base).webp`, `(base).avif`. -/
def perceptual_candidate_name (base : String) : PerceptualPipeline → String
  | PerceptualPipeline.jpeg => base ++ "_optim.jpg"
  | PerceptualPipeline.webp => base ++ ".webp"
  | PerceptualPipeline.avif => base ++ ".avif"

/-- Final output naming of `process_file` in `perceptual.py` (line 120):
`final_out_path = out_dir / best_candidate['file'].name` — the winning
candidate keeps its temporary file name. -/
def perceptual_output_name (base : String) (winner : PerceptualPipeline) :
    String :=
  perceptual_candidate_name base winner

/-- Final output naming of `process_file` in `lossless.py` (line 120):
`final_out = out_dir / in_path.name` — the input's original full file
name, whatever format won. -/
def lossless_output_name (in_name : String) : String := in_name

/-- Claim C9 as stated is false on the code for two of the three cited
modules: the `perceptual` module names a JPEG winner
`(base)_optim.jpg` rather than `(base).jpg`, and the `lossless` module
reuses the input's original name (here a `.png` name for a WebP winner)
rather than base name plus the winning pipeline's extension. -/
theorem claim_C9_counterexample :
    perceptual_output_name "photo" PerceptualPipeline.jpeg ≠
      "photo" ++ "." ++ "jpg" ∧
    lossless_output_name "photo.png" ≠ "photo" ++ "." ++ "webp" := by
  exact ⟨by decide, by decide⟩

/-- Claim C9 (amended): one output per successfully processed input, named
per module as the code does: `hybrid_perceptual` uses the input's stem
plus "." plus the winning pipeline's format (as the claim says);
`perceptual` promotes the winner under its temporary candidate name
(`stem_optim.jpg` / `stem.webp` / `stem.avif`); `lossless` reuses the
input's original file name unchanged. -/
theorem claim_C9_amended (in_stem in_name : String)
    (cs : List HybridCandidate) (c : HybridCandidate)
    (h : py_min_by (fun x => x.bytes) cs = some c) :
    hybrid_process_select in_stem in_name cs =
      HybridOutcome.winner (in_stem ++ "." ++ c.fmt) c.bytes
        (c.fmt ++ " (q=" ++ toString c.q ++ ")") ∧
    (∀ base, perceptual_output_name base PerceptualPipeline.jpeg =
        base ++ "_optim.jpg" ∧
      perceptual_output_name base PerceptualPipeline.webp = base ++ ".webp" ∧
      perceptual_output_name base PerceptualPipeline.avif =
        base ++ ".avif") ∧
    (∀ n, lossless_output_name n = n) := by
  refine ⟨?_, fun base => ⟨rfl, rfl, rfl⟩, fun n => rfl⟩
  rw [hybrid_process_select, h]

/-- Witness for the amended C9: a single JPEG winner at quality 80 is
promoted as `photo.jpg`. -/
theorem claim_C9_amended_witness :
    hybrid_process_select "photo" "photo.png" [⟨"jpg", 1000, 80⟩] =
      HybridOutcome.winner ("photo" ++ "." ++ "jpg") 1000
        ("jpg" ++ " (q=" ++ toString (80 : Int) ++ ")") :=
  (claim_C9_amended "photo" "photo.png" [⟨"jpg", 1000, 80⟩] ⟨"jpg", 1000, 80⟩
    rfl).1

/-- One iteration of `binary_search_quality_go` whose encode fails:
`lo = mid + 1`, nothing recorded, no file created. -/
lemma binary_search_quality_go_encode_fail_step (mc : Int → Bool)
    (mt : Int → Metrics) (args : HybridArgs) (lo hi : Int)
    (best : Option Int) (a : Nat) (fs : List Int) (h : lo ≤ hi)
    (hmc : mc (Int.fdiv (lo + hi) 2) = false) :
    binary_search_quality_go mc mt args lo hi best a fs =
      binary_search_quality_go mc mt args (Int.fdiv (lo + hi) 2 + 1) hi best
        (a + 1) fs := by
  rw [binary_search_quality_go, dif_pos h]
  simp [hmc]

/-- One iteration of `binary_search_quality_go` whose encode succeeds but
whose threshold decision fails: `lo = mid + 1`, candidate file left
behind. -/
lemma binary_search_quality_go_fail_step (mc : Int → Bool)
    (mt : Int → Metrics) (args : HybridArgs) (lo hi : Int)
    (best : Option Int) (a : Nat) (fs : List Int) (h : lo ≤ hi)
    (hmc : mc (Int.fdiv (lo + hi) 2) = true)
    (hp : hybrid_passes args (mt (Int.fdiv (lo + hi) 2)) = false) :
    binary_search_quality_go mc mt args lo hi best a fs =
      binary_search_quality_go mc mt args (Int.fdiv (lo + hi) 2 + 1) hi best
        (a + 1) (fs ++ [Int.fdiv (lo + hi) 2]) := by
  rw [binary_search_quality_go, dif_pos h]
  simp [hmc, hp]

/-- One iteration of `binary_search_quality_go` whose encode succeeds and
whose threshold decision passes: best is recorded, `hi = mid - 1`. -/
lemma binary_search_quality_go_pass_step (mc : Int → Bool)
    (mt : Int → Metrics) (args : HybridArgs) (lo hi : Int)
    (best : Option Int) (a : Nat) (fs : List Int) (h : lo ≤ hi)
    (hmc : mc (Int.fdiv (lo + hi) 2) = true)
    (hp : hybrid_passes args (mt (Int.fdiv (lo + hi) 2)) = true) :
    binary_search_quality_go mc mt args lo hi best a fs =
      binary_search_quality_go mc mt args lo (Int.fdiv (lo + hi) 2 - 1)
        (some (Int.fdiv (lo + hi) 2)) (a + 1)
        (fs ++ [Int.fdiv (lo + hi) 2]) := by
  rw [binary_search_quality_go, dif_pos h]
  simp [hmc, hp]

/-- Exit of `binary_search_quality_go` on an exhausted range. -/
lemma binary_search_quality_go_base (mc : Int → Bool) (mt : Int → Metrics)
    (args : HybridArgs) (lo hi : Int) (best : Option Int) (a : Nat)
    (fs : List Int) (h : ¬ lo ≤ hi) :
    binary_search_quality_go mc mt args lo hi best a fs = ⟨best, a, fs⟩ := by
  rw [binary_search_quality_go, dif_neg h]

/-- Claim C3, evaluated at a failing input (code bug): a hybrid search over
`[30, 31]` whose encodes all succeed but never meet the PSNR threshold
returns with both intermediate candidate files (qualities 30 and 31) still
present in the search's `search_` temporary directory.  The source's
cleanup hook is `finally: pass` (`hybrid_perceptual.py`, lines 85-86), and
`process_file` removes only its separate `work_` directory (line 145), so
contrary to the claim the non-winner artifacts are never deleted before
the selector returns. -/
theorem claim_C3_eval :
    binary_search_quality (fun _ => true) (fun _ => ⟨some 10, none, none⟩)
        ⟨1, false, 995/1000, 38⟩ 30 31 = ⟨none, 2, [30, 31]⟩ ∧
    (binary_search_quality (fun _ => true) (fun _ => ⟨some 10, none, none⟩)
        ⟨1, false, 995/1000, 38⟩ 30 31).files ≠ [] := by
  have h : binary_search_quality (fun _ => true)
      (fun _ => ⟨some 10, none, none⟩) ⟨1, false, 995/1000, 38⟩ 30 31 =
      ⟨none, 2, [30, 31]⟩ := by
    rw [binary_search_quality]
    rw [binary_search_quality_go_fail_step _ _ _ _ _ _ _ _ (by decide) rfl
      (by decide)]
    rw [binary_search_quality_go_fail_step _ _ _ _ _ _ _ _ (by decide) rfl
      (by decide)]
    rw [binary_search_quality_go_base _ _ _ _ _ _ _ _ (by decide)]
    decide
  exact ⟨h, by rw [h]; decide⟩

/-- The threshold-priority rule exactly as claim C4 states it: the mere
presence of a butteraugli score makes its threshold authoritative,
otherwise a requested and present SSIM decides, otherwise PSNR. -/
def claimed_threshold_priority (args : HybridArgs) (m : Metrics) : Bool :=
  if m.butter ≠ none then
    decide (m.butter.getD 0 ≤ args.target_butter)
  else if args.use_ssim = true ∧ m.ssim ≠ none then
    decide (args.target_ssim ≤ m.ssim.getD 0)
  else
    decide (args.target_psnr ≤ m.psnr.getD 0)

/-- Claim C4 as stated is false on the code: with a zero butteraugli
target (`--target-butter 0`, falsy in Python), a present butteraugli score
of 5 and a PSNR of 100 against target 38, the code ignores the butteraugli
threshold (its guard `args.target_butter and ...` fails) and passes via
PSNR, while the claimed priority rule would fail the candidate
(5 ≤ 0 is false). -/
theorem claim_C4_counterexample :
    hybrid_passes ⟨0, false, 995/1000, 38⟩ ⟨some 100, none, some 5⟩ = true ∧
    claimed_threshold_priority ⟨0, false, 995/1000, 38⟩
      ⟨some 100, none, some 5⟩ = false := by
  exact ⟨by decide, by decide⟩

/-- Claim C4 (amended): exactly one threshold decides pass/fail, chosen by
fixed priority — if the butteraugli target is nonzero (truthy) and the
butteraugli score is present, its threshold (score ≤ target) is
authoritative; otherwise if SSIM is requested and present, its threshold
(score ≥ target) is authoritative; otherwise the PSNR threshold
(score ≥ target, a missing PSNR counting as 0) is used — and a partially
populated metrics map falls through this order rather than failing the
search. -/
theorem claim_C4_amended (args : HybridArgs) (m : Metrics) :
    (∀ b, args.target_butter ≠ 0 → m.butter = some b →
      (hybrid_passes args m = true ↔ b ≤ args.target_butter)) ∧
    ((args.target_butter = 0 ∨ m.butter = none) →
      ∀ s, args.use_ssim = true → m.ssim = some s →
      (hybrid_passes args m = true ↔ args.target_ssim ≤ s)) ∧
    ((args.target_butter = 0 ∨ m.butter = none) →
      (args.use_ssim = false ∨ m.ssim = none) →
      (hybrid_passes args m = true ↔ args.target_psnr ≤ m.psnr.getD 0)) := by
  refine ⟨?_, ?_, ?_⟩
  · intro b h0 hb
    rw [hybrid_passes, if_pos ⟨h0, by rw [hb]; exact fun hc => nomatch hc⟩]
    simp [hb]
  · intro hdis s hus hs
    have hnot : ¬ (args.target_butter ≠ 0 ∧ m.butter ≠ none) := by
      rcases hdis with h0 | hbn
      · exact fun hc => hc.1 h0
      · exact fun hc => hc.2 hbn
    rw [hybrid_passes, if_neg hnot,
      if_pos ⟨hus, by rw [hs]; exact fun hc => nomatch hc⟩]
    simp [hs]
  · intro hdis hdis2
    have hnot : ¬ (args.target_butter ≠ 0 ∧ m.butter ≠ none) := by
      rcases hdis with h0 | hbn
      · exact fun hc => hc.1 h0
      · exact fun hc => hc.2 hbn
    have hnot2 : ¬ (args.use_ssim = true ∧ m.ssim ≠ none) := by
      rcases hdis2 with hus | hsn
      · exact fun hc => by rw [hus] at hc; exact nomatch hc.1
      · exact fun hc => hc.2 hsn
    rw [hybrid_passes, if_neg hnot, if_neg hnot2]
    simp

/-- Witness for the amended C4: with butteraugli target 1 and a present
score 1/2 the butteraugli threshold is authoritative and passes. -/
theorem claim_C4_amended_witness :
    hybrid_passes ⟨1, false, 995/1000, 38⟩ ⟨none, none, some (1/2)⟩ = true ↔
      (1/2 : ℚ) ≤ 1 :=
  (claim_C4_amended ⟨1, false, 995/1000, 38⟩ ⟨none, none, some (1/2)⟩).1
    (1/2) (by norm_num) rfl

/-- Outcome of the external process interaction inside `run_cmd`
(`src/be_humming/utils/shell.py`, lines 16-47): either
`process.communicate` completed with a return code and captured streams,
or it raised `subprocess.TimeoutExpired` (after which the source kills the
child process and returns failure), or `Popen` raised `FileNotFoundError`,
or some other exception was raised. -/
inductive ProcOutcome
  | completed (returncode : Int) (stdout stderr : String)
  | timedOut
  | notFound
  | otherError (msg : String)
deriving DecidableEq

/-- `run_cmd` (`shell.py`, lines 16-47).  `cmd0` is `cmd[0]`;
`file_size p` models `Path(p).stat().st_size` (`none` when the path does
not exist); `expected_outpaths = []` models the `None` default (Python
treats both as falsy and skips the check, and an empty `find?` below
returns `none` just the same).  The source's messages are reproduced,
except that the apostrophe of "it's" is written out as "it is". -/
def runCmd (cmd0 : String) (outcome : ProcOutcome)
    (expected_outpaths : List String) (file_size : String → Option Nat)
    (timeout : Nat) : Bool × String :=
  match outcome with
  | ProcOutcome.completed rc out err =>
    let full := out ++ err
    if rc ≠ 0 then
      (false, "Command failed (code " ++ toString rc ++ "): " ++ cmd0 ++
        ". Error: " ++ full)
    else
      match expected_outpaths.find? (fun p =>
          match file_size p with
          | none => true
          | some n => n == 0) with
      | some p =>
        (false, "Expected output not produced: " ++ p ++ ". Cmd output: " ++
          full)
      | none => (true, full)
  | ProcOutcome.timedOut =>
    (false, "Command timed out after " ++ toString timeout ++ "s: " ++ cmd0)
  | ProcOutcome.notFound =>
    (false, "Command not found: " ++ cmd0 ++
      ". Please ensure it is in your PATH.")
  | ProcOutcome.otherError e =>
    (false, "An unexpected error occurred: " ++ e)

/-- `pillow_save_jpeg` (`hybrid_perceptual.py`, lines 23-33): returns
`(True, None)` whenever the `Image.open`/`img.save` body raised no
exception and `(False, str(e))` otherwise.  `out_size` records the state
of the output file after the call (`none` = missing, `some 0` =
zero-byte); the source never inspects the output file, which is why the
parameter is unused. -/
def pillow_save_jpeg (save_exception : Option String)
    (out_size : Option Nat) : Bool × Option String :=
  match save_exception with
  | none => (true, none)
  | some e => (false, some e)

/-- Claim C7 as stated is false on the code for the Pillow encoder path:
`pillow_save_jpeg` reports success without checking the output file, so a
nominally successful encode whose output is zero-byte is not treated as a
failure of the attempt — fed into the hybrid search with the metrics
collapsing to PSNR 0 and a PSNR target of 0, the zero-byte candidate even
passes and becomes the recorded best quality. -/
theorem claim_C7_counterexample :
    (pillow_save_jpeg none (some 0)).1 = true ∧
    (binary_search_quality (fun _ => (pillow_save_jpeg none (some 0)).1)
        (fun _ => ⟨some 0, none, none⟩) ⟨0, false, 995/1000, 0⟩
        30 31).best = some 30 := by
  refine ⟨rfl, ?_⟩
  rw [binary_search_quality]
  rw [binary_search_quality_go_pass_step _ _ _ _ _ _ _ _ (by decide) rfl
    (by decide)]
  rw [binary_search_quality_go_base _ _ _ _ _ _ _ _ (by decide)]
  decide

/-- Claim C7 (amended): encode attempts issued through `run_cmd` with
expected output paths (mozjpeg, cwebp, avifenc) treat a missing or
zero-byte output of a zero-exit invocation as a failure of the attempt;
the Pillow fallback encoders perform no such check and report success
whenever the save call raises no exception, whatever the output file's
state. -/
theorem claim_C7_amended :
    (∀ (cmd0 : String) (rc : Int) (out err : String)
        (expected : List String) (fsize : String → Option Nat) (t : Nat)
        (p : String), p ∈ expected →
      (fsize p = none ∨ fsize p = some 0) →
      (runCmd cmd0 (ProcOutcome.completed rc out err) expected fsize t).1
        = false) ∧
    (∀ sz : Option Nat, (pillow_save_jpeg none sz).1 = true) := by
  constructor
  · intro cmd0 rc out err expected fsize t p hp hbad
    rw [runCmd]
    by_cases hrc : rc ≠ 0
    · rw [if_pos hrc]
    · rw [if_neg hrc]
      have hfind : (expected.find? (fun p =>
          match fsize p with
          | none => true
          | some n => n == 0)).isSome := by
        rw [List.find?_isSome]
        refine ⟨p, hp, ?_⟩
        rcases hbad with hnone | hzero
        · rw [hnone]
        · rw [hzero]
          rfl
      match hmatch : expected.find? (fun p =>
          match fsize p with
          | none => true
          | some n => n == 0) with
      | some q => rfl
      | none => rw [hmatch] at hfind; exact nomatch hfind
  · intro sz
    rfl

/-- Witness for the amended C7: a zero-exit `cjpeg` invocation whose
expected output file exists but is empty is reported as failure, while a
non-raising Pillow save over the same empty output is reported as
success. -/
theorem claim_C7_amended_witness :
    (runCmd "cjpeg" (ProcOutcome.completed 0 "" "") ["out.jpg"]
      (fun _ => some 0) 60).1 = false ∧
    (pillow_save_jpeg none (some 0)).1 = true :=
  ⟨claim_C7_amended.1 "cjpeg" 0 "" "" ["out.jpg"] (fun _ => some 0) 60
      "out.jpg" (by decide) (Or.inr rfl),
    claim_C7_amended.2 (some 0)⟩

/-- Claim C10: `run_cmd` is total — it always returns a `(success,
message)` pair, with `success = False` on a non-zero exit status, on a
missing or zero-byte expected output, on a timeout (the source kills the
child before returning), on a missing executable, and on any other
exception, and `success = True` exactly when the process exits zero and
every expected output exists with non-zero size. -/
theorem claim_C10 (cmd0 : String) (expected : List String)
    (fsize : String → Option Nat) (t : Nat) :
    (∀ rc out err, rc ≠ 0 →
      (runCmd cmd0 (ProcOutcome.completed rc out err) expected fsize t).1
        = false) ∧
    (∀ out err, (∃ p ∈ expected, fsize p = none ∨ fsize p = some 0) →
      (runCmd cmd0 (ProcOutcome.completed 0 out err) expected fsize t).1
        = false) ∧
    ((runCmd cmd0 ProcOutcome.timedOut expected fsize t).1 = false) ∧
    ((runCmd cmd0 ProcOutcome.notFound expected fsize t).1 = false) ∧
    (∀ e, (runCmd cmd0 (ProcOutcome.otherError e) expected fsize t).1
      = false) ∧
    (∀ out err, (∀ p ∈ expected, ∃ n, fsize p = some n ∧ n ≠ 0) →
      runCmd cmd0 (ProcOutcome.completed 0 out err) expected fsize t
        = (true, out ++ err)) := by
  refine ⟨?_, ?_, rfl, rfl, fun e => rfl, ?_⟩
  · intro rc out err hrc
    rw [runCmd, if_pos hrc]
  · intro out err hbad
    obtain ⟨p, hp, hbadp⟩ := hbad
    rw [runCmd, if_neg (by omega : ¬ (0 : Int) ≠ 0)]
    have hfind : (expected.find? (fun p =>
        match fsize p with
        | none => true
        | some n => n == 0)).isSome := by
      rw [List.find?_isSome]
      refine ⟨p, hp, ?_⟩
      rcases hbadp with hnone | hzero
      · rw [hnone]
      · rw [hzero]
        rfl
    match hmatch : expected.find? (fun p =>
        match fsize p with
        | none => true
        | some n => n == 0) with
    | some q => rfl
    | none => rw [hmatch] at hfind; exact nomatch hfind
  · intro out err hgood
    rw [runCmd, if_neg (by omega : ¬ (0 : Int) ≠ 0)]
    have hfind : expected.find? (fun p =>
        match fsize p with
        | none => true
        | some n => n == 0) = none := by
      rw [List.find?_eq_none]
      intro p hp
      obtain ⟨n, hn, hnz⟩ := hgood p hp
      rw [hn]
      simp [hnz]
    rw [hfind]

/-- A per-file result record as collected by the batch runners (the fields
relevant to claim C6). -/
structure JobRec where
  file : String
  original_bytes : Int
  error : Option String
deriving DecidableEq

/-- `process_file` of `hybrid_perceptual.py` (lines 88-147) at the
granularity of claim C6: the initial record construction
`res = {"file": ..., "original_bytes": int(in_path.stat().st_size), ...}`
(line 92) runs before the `try` block, so an exception raised there
(modelled by `stat_result = Except.error e`, e.g. the input vanished
between globbing and processing) escapes `process_file`; an exception
raised inside the `try` body (modelled by `body` returning
`Except.error e`) is caught at line 142 and recorded as `res["error"]`. -/
def hybrid_process_file (file : String) (stat_result : Except String Int)
    (body : JobRec → Except String JobRec) : Except String JobRec :=
  match stat_result with
  | Except.error e => Except.error e
  | Except.ok n =>
    match body ⟨file, n, none⟩ with
    | Except.ok r => Except.ok r
    | Except.error e => Except.ok ⟨file, n, some e⟩

/-- The result-collection loop of `run` in `hybrid_perceptual.py`
(lines 166-170): `results.append(fut.result())` with no exception
handling around it, so the first job whose `process_file` raised makes the
whole batch raise (results are lost). -/
def hybrid_run_collect : List (Except String JobRec) →
    Except String (List JobRec)
  | [] => Except.ok []
  | Except.ok r :: rest =>
    match hybrid_run_collect rest with
    | Except.ok rs => Except.ok (r :: rs)
    | Except.error e => Except.error e
  | Except.error e :: _ => Except.error e

/-- The result-collection loop of `run` in `perceptual.py` (lines
159-166): `try: results.append(fut.result()) except ...: Log.error(...)`
— a job that raised is logged to the console and dropped from
`results`. -/
def perceptual_run_collect (jobs : List (Except String JobRec)) :
    List JobRec :=
  jobs.foldl (fun acc j =>
    match j with
    | Except.ok r => acc ++ [r]
    | Except.error _ => acc) []

/-- Claim C6 as stated is false on the code: a single job of the hybrid
module that raises before its `try` block (here: the initial `stat` call
fails) aborts the whole batch instead of being recorded, and in the
perceptual module a raising job is dropped from the collected results (no
record at all for that input file). -/
theorem claim_C6_counterexample :
    hybrid_run_collect [hybrid_process_file "a.jpg"
        (Except.error "stat failed") (fun r => Except.ok r)] =
      Except.error "stat failed" ∧
    (¬ ∃ rs : List JobRec, hybrid_run_collect [hybrid_process_file "a.jpg"
        (Except.error "stat failed") (fun r => Except.ok r)] =
      Except.ok rs) ∧
    (perceptual_run_collect [Except.error "boom"]).length = 0 := by
  refine ⟨rfl, ?_, rfl⟩
  rintro ⟨rs, hrs⟩
  simp [hybrid_process_file, hybrid_run_collect] at hrs

/-- Claim C6 (amended): when no job raises an unhandled exception, the
hybrid batch collects exactly one record per input; the hybrid
`process_file` traps every exception of its processing body and records
it in the job's error field (only a failure before the `try` block, such
as the initial `stat`, can escape — and then it aborts the batch, see the
counterexample); the perceptual collection records exactly the
non-raising jobs, in order, and drops raising ones. -/
theorem claim_C6_amended :
    (∀ jobs : List (Except String JobRec),
      (∀ j ∈ jobs, ∃ r, j = Except.ok r) →
      ∃ rs, hybrid_run_collect jobs = Except.ok rs ∧
        rs.length = jobs.length) ∧
    (∀ (file : String) (n : Int) (body : JobRec → Except String JobRec),
      ∃ r, hybrid_process_file file (Except.ok n) body = Except.ok r ∧
        ∀ e, body ⟨file, n, none⟩ = Except.error e → r.error = some e) ∧
    (∀ jobs : List (Except String JobRec),
      perceptual_run_collect jobs =
        jobs.filterMap (fun j =>
          match j with
          | Except.ok r => some r
          | Except.error _ => none)) := by
  refine ⟨?_, ?_, ?_⟩
  · intro jobs
    induction jobs with
    | nil => exact fun _ => ⟨[], rfl, rfl⟩
    | cons j rest ih =>
      intro hok
      obtain ⟨r, hr⟩ := hok j (List.mem_cons_self j rest)
      obtain ⟨rs, hrs, hlen⟩ := ih (fun j hj => hok j (List.mem_cons_of_mem _ hj))
      subst hr
      refine ⟨r :: rs, ?_, by simp [hlen]⟩
      simp only [hybrid_run_collect, hrs]
  · intro file n body
    cases hbody : body ⟨file, n, none⟩ with
    | ok r =>
      refine ⟨r, by simp [hybrid_process_file, hbody], ?_⟩
      intro e he
      exact Except.noConfusion he
    | error e =>
      refine ⟨⟨file, n, some e⟩, by simp [hybrid_process_file, hbody], ?_⟩
      intro e₂ he₂
      injection he₂ with hee
      show some e = some e₂
      rw [hee]
  · have aux : ∀ (jobs : List (Except String JobRec)) (acc : List JobRec),
        jobs.foldl (fun acc j =>
          match j with
          | Except.ok r => acc ++ [r]
          | Except.error _ => acc) acc
          = acc ++ jobs.filterMap (fun j =>
              match j with
              | Except.ok r => some r
              | Except.error _ => none) := by
      intro jobs
      induction jobs with
      | nil => intro acc; simp
      | cons j rest ih =>
        intro acc
        cases j with
        | ok r => simp [List.foldl_cons, List.filterMap_cons, ih]
        | error e => simp [List.foldl_cons, List.filterMap_cons, ih]
    intro jobs
    rw [perceptual_run_collect, aux]
    rfl

/-- Witness for the amended C6: a batch of one well-behaved job yields one
record, and a job whose body raises is still returned as a record with the
exception in its error field. -/
theorem claim_C6_amended_witness :
    (∃ rs, hybrid_run_collect
        [(Except.ok ⟨"a.jpg", 100, none⟩ : Except String JobRec)] =
        Except.ok rs ∧
      rs.length =
        [(Except.ok ⟨"a.jpg", 100, none⟩ : Except String JobRec)].length) ∧
    (∃ r, hybrid_process_file "b.jpg" (Except.ok 7)
        (fun _ => (Except.error "encoder blew up" : Except String JobRec)) =
        Except.ok r ∧
      ∀ e, (fun _ : JobRec =>
          (Except.error "encoder blew up" : Except String JobRec))
          (⟨"b.jpg", 7, none⟩ : JobRec) = Except.error e →
        r.error = some e) :=
  ⟨claim_C6_amended.1 [Except.ok ⟨"a.jpg", 100, none⟩]
      (fun j hj => ⟨⟨"a.jpg", 100, none⟩, by
        rw [List.mem_singleton] at hj
        exact hj⟩),
    claim_C6_amended.2.1 "b.jpg" 7
      (fun _ => (Except.error "encoder blew up" : Except String JobRec))⟩

/-- Witness for C10 at concrete inputs covering every failure mode and the
success mode. -/
theorem claim_C10_witness :
    ((runCmd "cjpeg" (ProcOutcome.completed 1 "out" "err") ["o.jpg"]
      (fun _ => some 5) 60).1 = false) ∧
    ((runCmd "cjpeg" (ProcOutcome.completed 0 "" "") ["o.jpg"]
      (fun _ => none) 60).1 = false) ∧
    ((runCmd "cjpeg" ProcOutcome.timedOut ["o.jpg"] (fun _ => some 5)
      60).1 = false) ∧
    ((runCmd "cjpeg" ProcOutcome.notFound [] (fun _ => none) 60).1
      = false) ∧
    ((runCmd "cjpeg" (ProcOutcome.otherError "oops") [] (fun _ => none)
      60).1 = false) ∧
    (runCmd "cjpeg" (ProcOutcome.completed 0 "ok" "") ["o.jpg"]
      (fun _ => some 5) 60 = (true, "ok" ++ "")) :=
  ⟨(claim_C10 "cjpeg" ["o.jpg"] (fun _ => some 5) 60).1 1 "out" "err"
      (by decide),
    (claim_C10 "cjpeg" ["o.jpg"] (fun _ => none) 60).2.1 "" ""
      ⟨"o.jpg", by decide, Or.inl rfl⟩,
    (claim_C10 "cjpeg" ["o.jpg"] (fun _ => some 5) 60).2.2.1,
    (claim_C10 "cjpeg" [] (fun _ => none) 60).2.2.2.1,
    (claim_C10 "cjpeg" [] (fun _ => none) 60).2.2.2.2.1 "oops",
    (claim_C10 "cjpeg" ["o.jpg"] (fun _ => some 5) 60).2.2.2.2.2 "ok" ""
      (fun p hp => ⟨5, rfl, by decide⟩)⟩

end BeHumming
